import Mathlib

/-!
Shallow embedding of the referral-system core (services/userService.js,
utils/validation.js, config/config.js).

JavaScript strings are modelled as lists of UTF-16 code units (`List Nat`);
the string operations used by the code (`trim`, `toUpperCase`,
`toLowerCase`) are modelled code-unit-wise on the ASCII range, which covers
every string the system manipulates.  JavaScript runtime values that can
reach the sanitizer are modelled by `JsVal`; calling a string method on a
non-string truthy value raises a `TypeError`, modelled as `Except.error`.
Timestamps (`new Date()`) are opaque; they are modelled as a `Nat` supplied
to each operation.  `crypto.randomBytes(3)` is modelled as an entropy
stream `Nat → Nat × Nat × Nat` giving the three bytes of each draw.
-/

namespace Referral

/-- A JavaScript string: its list of UTF-16 code units. -/
abbrev JsStr := List Nat

/-- Code units of a Lean string literal (all literals used are ASCII). -/
def jsStr (s : String) : JsStr := s.data.map Char.toNat

/-- JavaScript whitespace recognised by `String.prototype.trim` (ASCII part). -/
def isWs (n : Nat) : Bool :=
  decide (n = 32 ∨ n = 9 ∨ n = 10 ∨ n = 13 ∨ n = 11 ∨ n = 12)

/-- `toUpperCase` on one code unit (ASCII range). -/
def ucChar (n : Nat) : Nat := if 97 ≤ n ∧ n ≤ 122 then n - 32 else n

/-- `toLowerCase` on one code unit (ASCII range). -/
def lcChar (n : Nat) : Nat := if 65 ≤ n ∧ n ≤ 90 then n + 32 else n

/-- `String.prototype.trim`: strip leading and trailing whitespace. -/
def jsTrim (l : JsStr) : JsStr :=
  ((l.dropWhile isWs).reverse.dropWhile isWs).reverse

/-- `String.prototype.toUpperCase` (ASCII). -/
def jsToUpper (l : JsStr) : JsStr := l.map ucChar

/-- `String.prototype.toLowerCase` (ASCII). -/
def jsToLower (l : JsStr) : JsStr := l.map lcChar

/-- A JavaScript runtime value as far as the sanitizer/validator observe it. -/
inductive JsVal where
  | undef : JsVal
  | nullV : JsVal
  | str (s : JsStr) : JsVal
  | num (n : Int) : JsVal
  | boolV (b : Bool) : JsVal
deriving DecidableEq, Repr

/-- JavaScript truthiness of a `JsVal`. -/
def truthy : JsVal → Bool
  | .undef => false
  | .nullV => false
  | .str s => !s.isEmpty
  | .num n => n != 0
  | .boolV b => b

/-- `typeof v === 'string'`. -/
def isStringVal : JsVal → Bool
  | .str _ => true
  | _ => false

/-! ### Configuration (config/config.js) -/

def minNameLength : Nat := 2
def maxNameLength : Nat := 50
def minEmailLength : Nat := 5
def maxEmailLength : Nat := 100
def referralCodeLength : Nat := 6
def referralBonus : Int := 10
def initialPoints : Int := 0

/-! ### Validation (utils/validation.js) -/

/-- One maximal run of `[^\s@]` characters: nonempty, no whitespace, no `@`. -/
def emailAtom (l : JsStr) : Bool :=
  !l.isEmpty && l.all (fun c => !isWs c && c != 64)

/-- The regex `^[^\s@]+@[^\s@]+\.[^\s@]+$` from `isValidEmail`:
the string decomposes as `A ++ "@" ++ B ++ "." ++ C` with `A`, `B`, `C`
nonempty and free of whitespace and `@` (`@` is code unit 64, `.` is 46). -/
def isValidEmail (l : JsStr) : Bool :=
  (List.range l.length).any fun i =>
    (List.range l.length).any fun j =>
      decide (i < j) && (l.getD i 0 == 64) && (l.getD j 0 == 46) &&
      emailAtom (l.take i) &&
      emailAtom ((l.drop (i + 1)).take (j - i - 1)) &&
      emailAtom (l.drop (j + 1))

/-- The regex `^[A-Z0-9]{6}$` from `isValidReferralCode`. -/
def isValidReferralCode (l : JsStr) : Bool :=
  l.length == referralCodeLength &&
  l.all (fun c => decide ((65 ≤ c ∧ c ≤ 90) ∨ (48 ≤ c ∧ c ≤ 57)))

def msgNameRequired : JsStr := jsStr "Name is required and must be a string"
def msgNameEmpty : JsStr := jsStr "Name cannot be empty"
def msgNameMin : JsStr := jsStr "Name must be at least 2 characters long"
def msgNameMax : JsStr := jsStr "Name cannot exceed 50 characters"
def msgEmailRequired : JsStr := jsStr "Email is required and must be a string"
def msgEmailEmpty : JsStr := jsStr "Email cannot be empty"
def msgEmailMin : JsStr := jsStr "Email must be at least 5 characters long"
def msgEmailMax : JsStr := jsStr "Email cannot exceed 100 characters"
def msgEmailFormat : JsStr := jsStr "Email format is invalid"
def msgRcString : JsStr := jsStr "Referral code must be a string"
def msgRcEmpty : JsStr := jsStr "Referral code cannot be empty"
def msgRcLen : JsStr := jsStr "Referral code must be exactly 6 characters"
def msgRcAlnum : JsStr := jsStr "Referral code must contain only alphanumeric characters"

/-- Raw input record handed to `validateUserInput` / `sanitizeUserInput`. -/
structure UserInput where
  name : JsVal
  email : JsVal
  referralCode : JsVal
deriving DecidableEq, Repr

/-- The name branch of `validateUserInput`:
`if (!name || typeof name !== 'string') ... else { ... else if ... }`. -/
def nameErrors : JsVal → List JsStr
  | .str s =>
    if s.isEmpty then [msgNameRequired]
    else
      let t := jsTrim s
      if t.length = 0 then [msgNameEmpty]
      else if t.length < minNameLength then [msgNameMin]
      else if maxNameLength < t.length then [msgNameMax]
      else []
  | _ => [msgNameRequired]

/-- The email branch of `validateUserInput`. -/
def emailErrors : JsVal → List JsStr
  | .str s =>
    if s.isEmpty then [msgEmailRequired]
    else
      let t := jsToLower (jsTrim s)
      if t.length = 0 then [msgEmailEmpty]
      else if t.length < minEmailLength then [msgEmailMin]
      else if maxEmailLength < t.length then [msgEmailMax]
      else if !isValidEmail t then [msgEmailFormat]
      else []
  | _ => [msgEmailRequired]

/-- The referral-code branch of `validateUserInput`
(only runs when the field is neither `undefined` nor `null`). -/
def rcErrors : JsVal → List JsStr
  | .undef => []
  | .nullV => []
  | .str s =>
    let t := jsToUpper (jsTrim s)
    if t.length = 0 then [msgRcEmpty]
    else if t.length ≠ referralCodeLength then [msgRcLen]
    else if !isValidReferralCode t then [msgRcAlnum]
    else []
  | _ => [msgRcString]

structure ValidationResult where
  isValid : Bool
  errors : List JsStr
deriving DecidableEq, Repr

/-- `validateUserInput`: the three field checks push into one `errors`
array, name first, then email, then referral code. -/
def validateUserInput (u : UserInput) : ValidationResult :=
  let errors := nameErrors u.name ++ emailErrors u.email ++ rcErrors u.referralCode
  { isValid := errors.isEmpty, errors := errors }

/-- Output of `sanitizeUserInput`: fields absent from the returned object
are `none`. -/
structure Sanitized where
  name : Option JsStr
  email : Option JsStr
  referralCode : Option JsStr
deriving DecidableEq, Repr

/-- One field of `sanitizeUserInput`: a falsy field is skipped; a truthy
field has a string method applied to it, which throws a `TypeError` when
the value is not a string. -/
def sanitizeField (v : JsVal) (f : JsStr → JsStr) : Except Unit (Option JsStr) :=
  if truthy v then
    match v with
    | .str s => .ok (some (f s))
    | _ => .error ()
  else .ok none

/-- `sanitizeUserInput`: trims `name`, trims+lowers `email`,
trims+uppers `referralCode`, in that order. -/
def sanitizeUserInput (u : UserInput) : Except Unit Sanitized := do
  let n ← sanitizeField u.name jsTrim
  let e ← sanitizeField u.email (fun s => jsToLower (jsTrim s))
  let r ← sanitizeField u.referralCode (fun s => jsToUpper (jsTrim s))
  .ok { name := n, email := e, referralCode := r }

/-- The `JsVal` a sanitized optional field presents to later steps. -/
def jsOfOpt : Option JsStr → JsVal
  | none => .undef
  | some s => .str s

/-! ### The user directory (services/userService.js) -/

/-- A stored user record. -/
structure User where
  id : Nat
  name : JsStr
  email : JsStr
  referralCode : JsStr
  points : Int
  createdAt : Nat
  updatedAt : Nat
deriving DecidableEq, Repr

/-- The `UserService` instance state: the `users` array and `nextUserId`. -/
structure ServiceState where
  users : List User
  nextUserId : Nat
deriving DecidableEq, Repr

/-- The sample users the service constructor seeds (timestamps are the
three distinct creation dates, abstracted to 1, 2, 3). -/
def seedState : ServiceState :=
  { users :=
      [ { id := 1, name := jsStr "Alice Johnson", email := jsStr "alice@example.com",
          referralCode := jsStr "ABC123", points := 0, createdAt := 1, updatedAt := 1 },
        { id := 2, name := jsStr "Bob Smith", email := jsStr "bob@example.com",
          referralCode := jsStr "DEF456", points := 20, createdAt := 2, updatedAt := 2 },
        { id := 3, name := jsStr "Carol Davis", email := jsStr "carol@example.com",
          referralCode := jsStr "GHI789", points := 50, createdAt := 3, updatedAt := 3 } ],
    nextUserId := 4 }

/-- `findUserByReferralCode`: falsy or non-string input returns null;
otherwise trim + upper-case and compare against stored codes. -/
def findUserByReferralCode (users : List User) : JsVal → Option User
  | .str s =>
    if s.isEmpty then none
    else users.find? (fun u => u.referralCode == jsToUpper (jsTrim s))
  | _ => none

/-- `findUserByEmail`: falsy or non-string input returns null;
otherwise trim + lower-case and compare against stored emails. -/
def findUserByEmail (users : List User) : JsVal → Option User
  | .str s =>
    if s.isEmpty then none
    else users.find? (fun u => u.email == jsToLower (jsTrim s))
  | _ => none

/-- `getUserById`. -/
def getUserById (users : List User) (id : Nat) : Option User :=
  users.find? (fun u => u.id == id)

/-- `getAllUsers`: maps each stored user to its public projection (which
carries every field of this model). -/
def getAllUsers (st : ServiceState) : List User :=
  st.users.map fun u =>
    { id := u.id, name := u.name, email := u.email, referralCode := u.referralCode,
      points := u.points, createdAt := u.createdAt, updatedAt := u.updatedAt }

/-! ### Referral-code generation -/

/-- One lower-case hex digit (code unit). -/
def hexDigit (n : Nat) : Nat := if n < 10 then 48 + n else 87 + n

/-- `Buffer.toString('hex')` of one byte: two lower-case hex digits. -/
def byteHex (b : Nat) : JsStr := [hexDigit (b / 16 % 16), hexDigit (b % 16)]

/-- One candidate code from a three-byte draw:
`crypto.randomBytes(3).toString('hex').toUpperCase()`, padded with `'0'`
(code unit 48) when shorter than 6 (the pad branch is never taken: three
bytes always hex-encode to 6 digits). -/
def candidate (bytes : Nat × Nat × Nat) : JsStr :=
  let code := jsToUpper (byteHex bytes.1 ++ byteHex bytes.2.1 ++ byteHex bytes.2.2)
  if code.length < 6 then code ++ List.replicate (6 - code.length) 48 else code

/-- `this.users.some(user => user.referralCode === code)`. -/
def collides (users : List User) (code : JsStr) : Bool :=
  users.any (fun u => u.referralCode == code)

/-- The `do … while (collides && attempts < maxAttempts)` loop of
`generateReferralCode`, about to make the draw numbered `attempts`
(0-based; the JS variable counts it as draw `attempts + 1`).
`fuel = 99 - attempts` counts how many further iterations the guard
`attempts < 100` still allows; `generateReferralCode` starts the loop in
that correspondence and the recursion maintains it.

With `fuel = 0` the loop is making its 100th and last draw: the guard
`attempts < maxAttempts` then fails whatever that candidate is, and the
post-loop `attempts >= maxAttempts` check throws — so the 100th draw is
never returned, even when it does not collide.  With `fuel + 1`, a
non-colliding candidate passes the post-loop check (`attempts < 100`)
and is returned; a colliding one re-enters the loop. -/
def genAux (users : List User) (e : Nat → Nat × Nat × Nat) (attempts : Nat) :
    Nat → Except Unit JsStr
  | 0 => .error ()
  | fuel + 1 =>
    let code := candidate (e attempts)
    if collides users code then genAux users e (attempts + 1) fuel
    else .ok code

/-- `generateReferralCode` (the thrown `Error` is the `.error` case). -/
def generateReferralCode (users : List User) (e : Nat → Nat × Nat × Nat) :
    Except Unit JsStr :=
  genAux users e 0 99

/-! ### Registration, points update, statistics -/

/-- Result record returned by `registerUser` / `updateUserPoints`. -/
structure RegResult where
  success : Bool
  statusCode : Nat
  error : Option JsStr
  user : Option User
deriving DecidableEq, Repr

def msgEmailExists : JsStr := jsStr "Email already exists"
def msgInvalidCode : JsStr := jsStr "Invalid referral code"
def msgInternal : JsStr := jsStr "Internal server error"
def msgUserNotFound : JsStr := jsStr "User not found"

/-- Mutation through the alias returned by `Array.prototype.find`:
replace the first element satisfying `p` by its image under `f`. -/
def updateFirst (p : User → Bool) (f : User → User) : List User → List User
  | [] => []
  | u :: us => if p u then f u :: us else u :: updateFirst p f us

/-- Steps 5–8 of `registerUser` (all gates already passed): take the next
id (the post-increment has happened even if code generation then throws),
generate the new user's own code, push the new user, then award the
referral bonus to the first stored user whose code matches the sanitized
`referralCode` — the mutation happens through the alias returned by
`find`, after the push, so the scan runs over the extended array. -/
def createAndAward (st : ServiceState) (sd : Sanitized)
    (e : Nat → Nat × Nat × Nat) (now : Nat) : RegResult × ServiceState :=
  let newId := st.nextUserId
  match generateReferralCode st.users e with
  | .error _ =>
    ({ success := false, statusCode := 500, error := some msgInternal,
       user := none }, { st with nextUserId := st.nextUserId + 1 })
  | .ok code =>
    let newUser : User :=
      { id := newId, name := sd.name.getD [], email := sd.email.getD [],
        referralCode := code, points := initialPoints,
        createdAt := now, updatedAt := now }
    let users1 := st.users ++ [newUser]
    let users2 :=
      if truthy (jsOfOpt sd.referralCode) = true then
        match sd.referralCode with
        | some c =>
          if (findUserByReferralCode users1 (.str c)).isSome then
            updateFirst (fun u => u.referralCode == jsToUpper (jsTrim c))
              (fun u =>
                { u with points := u.points + referralBonus, updatedAt := now })
              users1
          else users1
        | none => users1
      else users1
    ({ success := true, statusCode := 201, error := none, user := some newUser },
     { users := users2, nextUserId := st.nextUserId + 1 })

/-- Steps 2–4 of `registerUser`: the validation gate, the duplicate-email
gate, and the referral-code resolution gate, each returning without
touching the state; then the creation steps. -/
def registerCore (st : ServiceState) (sd : Sanitized)
    (e : Nat → Nat × Nat × Nat) (now : Nat) : RegResult × ServiceState :=
  let validation := validateUserInput
    { name := jsOfOpt sd.name, email := jsOfOpt sd.email,
      referralCode := jsOfOpt sd.referralCode }
  if validation.isValid = false then
    ({ success := false, statusCode := 400,
       error := some (List.intercalate (jsStr ", ") validation.errors),
       user := none }, st)
  else match findUserByEmail st.users (jsOfOpt sd.email) with
  | some _ =>
    ({ success := false, statusCode := 409, error := some msgEmailExists,
       user := none }, st)
  | none =>
    if truthy (jsOfOpt sd.referralCode) = true ∧
        findUserByReferralCode st.users (jsOfOpt sd.referralCode) = none then
      ({ success := false, statusCode := 400, error := some msgInvalidCode,
         user := none }, st)
    else createAndAward st sd e now

/-- `registerUser`.  Returns the result together with the state after the
call.  The `try/catch` surfaces the two possible throws (string method on
a truthy non-string during sanitization; code-generation exhaustion) as
the 500 result. -/
def registerUser (st : ServiceState) (input : UserInput)
    (e : Nat → Nat × Nat × Nat) (now : Nat) : RegResult × ServiceState :=
  match sanitizeUserInput input with
  | .error _ =>
    ({ success := false, statusCode := 500, error := some msgInternal, user := none }, st)
  | .ok sd => registerCore st sd e now

/-- `updateUserPoints`. -/
def updateUserPoints (st : ServiceState) (userId : Nat) (points : Int)
    (now : Nat) : RegResult × ServiceState :=
  match getUserById st.users userId with
  | none =>
    ({ success := false, statusCode := 404, error := some msgUserNotFound,
       user := none }, st)
  | some u =>
    let u' : User := { u with points := u.points + points, updatedAt := now }
    let users' := updateFirst (fun v => v.id == userId)
      (fun v => { v with points := v.points + points, updatedAt := now }) st.users
    ({ success := true, statusCode := 200, error := none, user := some u' },
     { st with users := users' })

/-- Insert keeping the list sorted by descending points, after every
element with strictly larger points (so the resulting sort is stable, as
`Array.prototype.sort` is required to be). -/
def insertByPointsDesc (u : User) : List User → List User
  | [] => [u]
  | v :: vs => if u.points < v.points then v :: insertByPointsDesc u vs
               else u :: v :: vs

/-- The effect of `this.users.sort((a, b) => b.points - a.points)`: the
stable descending-by-points reordering of the array. -/
def sortByPointsDesc (l : List User) : List User :=
  l.foldr insertByPointsDesc []

/-- Projection used for `topUsers`. -/
structure TopUser where
  name : JsStr
  email : JsStr
  points : Int
deriving DecidableEq, Repr

structure Stats where
  totalUsers : Nat
  totalPoints : Int
  averagePoints : Int
  topUsers : List TopUser
deriving DecidableEq, Repr

/-- `Math.round(p / n)` for the exact rational `p / n`, `n > 0`:
round half toward positive infinity, i.e. `⌊(2p + n) / (2n)⌋`. -/
def jsRoundDiv (p : Int) (n : Nat) : Int :=
  Int.fdiv (2 * p + n) (2 * n)

/-- `getUserStatistics`.  `this.users.sort(...)` sorts the stored array in
place, so the call returns the statistics together with the mutated
state. -/
def getUserStatistics (st : ServiceState) : Stats × ServiceState :=
  let totalUsers := st.users.length
  let totalPoints := (st.users.map (fun u => u.points)).sum
  let averagePoints := if 0 < totalUsers then jsRoundDiv totalPoints totalUsers else 0
  let sorted := sortByPointsDesc st.users
  let topUsers := (sorted.take 5).map fun u =>
    { name := u.name, email := u.email, points := u.points : TopUser }
  ({ totalUsers := totalUsers, totalPoints := totalPoints,
     averagePoints := averagePoints, topUsers := topUsers },
   { st with users := sorted })

/-! ### The operations that can touch the directory, and reachability -/

/-- States reachable from the seed by the service operations (the pure
lookups `findUserByReferralCode`, `findUserByEmail`, `getUserById`,
`getAllUsers` take no state argument back, so they are not steps). -/
inductive Reachable : ServiceState → Prop where
  | seed : Reachable seedState
  | register {st} (input : UserInput) (e : Nat → Nat × Nat × Nat) (now : Nat) :
      Reachable st → Reachable (registerUser st input e now).2
  | update {st} (userId : Nat) (points : Int) (now : Nat) :
      Reachable st → Reachable (updateUserPoints st userId points now).2
  | stats {st} : Reachable st → Reachable (getUserStatistics st).2


/-! ### Derived predicates and concrete inputs used by the claims -/

/-- Sorted by descending `points`. -/
abbrev SortedDesc (l : List User) : Prop :=
  l.Pairwise fun a b => b.points ≤ a.points

/-- A truthy value that is not a string (calling `.trim()` on it throws). -/
def truthyNonString (v : JsVal) : Bool := truthy v && !isStringVal v

/-- The claimed Directory invariant: no two users share an email
(case-insensitively) or a referral code, every stored referral code
matches `[A-Z0-9]{6}`, `nextUserId` exceeds every stored id, and ids are
pairwise distinct (never reused). -/
def Inv (st : ServiceState) : Prop :=
  (st.users.map fun u => jsToLower u.email).Nodup ∧
  (st.users.map fun u => u.referralCode).Nodup ∧
  (∀ u ∈ st.users, isValidReferralCode u.referralCode = true) ∧
  (∀ u ∈ st.users, u.id < st.nextUserId) ∧
  (st.users.map fun u => u.id).Nodup

/-- Auxiliary strengthening: every stored email is already lower-cased
(true of the seeds; registration stores `trim().toLowerCase()` output). -/
def StoredNormalized (st : ServiceState) : Prop :=
  ∀ u ∈ st.users, jsToLower u.email = u.email

/-- Concrete inputs used to witness the claims. -/
def wEntropy : Nat → Nat × Nat × Nat := fun _ => (0, 0, 1)

def wInputJohn : UserInput :=
  { name := .str (jsStr "John Doe"), email := .str (jsStr "john@example.com"),
    referralCode := .str (jsStr "ABC123") }

def wSdJohn : Sanitized :=
  { name := some (jsStr "John Doe"), email := some (jsStr "john@example.com"),
    referralCode := some (jsStr "ABC123") }

def wAlice : User :=
  { id := 1, name := jsStr "Alice Johnson", email := jsStr "alice@example.com",
    referralCode := jsStr "ABC123", points := 0, createdAt := 1, updatedAt := 1 }

def wInputDup : UserInput :=
  { name := .str (jsStr "Test"), email := .str (jsStr "alice@example.com"),
    referralCode := .undef }

def wSdDup : Sanitized :=
  { name := some (jsStr "Test"), email := some (jsStr "alice@example.com"),
    referralCode := none }

def wStuckUser : User :=
  { id := 1, name := jsStr "Old User", email := jsStr "old@example.com",
    referralCode := jsStr "000000", points := 0, createdAt := 0, updatedAt := 0 }

def wStuckState : ServiceState := { users := [wStuckUser], nextUserId := 2 }

def wZeroEntropy : Nat → Nat × Nat × Nat := fun _ => (0, 0, 0)

def wInputNew : UserInput :=
  { name := .str (jsStr "Test User"), email := .str (jsStr "test@example.com"),
    referralCode := .undef }

def wInputNum : UserInput :=
  { name := .num 5, email := .str (jsStr "x@y.zz"), referralCode := .undef }

def wInputNoName : UserInput :=
  { name := .boolV false, email := .str (jsStr "x@y.zz"), referralCode := .undef }

def c5User : User :=
  { id := 1, name := jsStr "Legacy", email := jsStr "legacy@example.com",
    referralCode := jsStr "ABCDEF", points := 0, createdAt := 0, updatedAt := 0 }

def c5Entropy : Nat → Nat × Nat × Nat :=
  fun k => if k < 99 then (171, 205, 239) else (0, 0, 1)

def c3Input : UserInput :=
  { name := .str [], email := .str (jsStr "bad"), referralCode := .undef }

/-! ### Lemmas: case mapping and trimming -/

theorem ucChar_ucChar (n : Nat) : ucChar (ucChar n) = ucChar n := by
  unfold ucChar
  by_cases h : 97 ≤ n ∧ n ≤ 122
  · simp only [if_pos h]
    rw [if_neg (by omega)]
  · simp only [if_neg h]

theorem lcChar_lcChar (n : Nat) : lcChar (lcChar n) = lcChar n := by
  unfold lcChar
  by_cases h : 65 ≤ n ∧ n ≤ 90
  · simp only [if_pos h]
    rw [if_neg (by omega)]
  · simp only [if_neg h]

theorem isWs_ucChar (n : Nat) : isWs (ucChar n) = isWs n := by
  unfold ucChar
  by_cases h : 97 ≤ n ∧ n ≤ 122
  · simp only [if_pos h, isWs, decide_eq_decide]
    omega
  · simp only [if_neg h]

theorem isWs_lcChar (n : Nat) : isWs (lcChar n) = isWs n := by
  unfold lcChar
  by_cases h : 65 ≤ n ∧ n ≤ 90
  · simp only [if_pos h, isWs, decide_eq_decide]
    omega
  · simp only [if_neg h]

theorem jsToUpper_jsToUpper (l : JsStr) : jsToUpper (jsToUpper l) = jsToUpper l := by
  have h : ucChar ∘ ucChar = ucChar := funext ucChar_ucChar
  simp [jsToUpper, List.map_map, h]

theorem jsToLower_jsToLower (l : JsStr) : jsToLower (jsToLower l) = jsToLower l := by
  have h : lcChar ∘ lcChar = lcChar := funext lcChar_lcChar
  simp [jsToLower, List.map_map, h]

theorem jsTrim_jsToUpper (l : JsStr) : jsTrim (jsToUpper l) = jsToUpper (jsTrim l) := by
  have h : (isWs ∘ ucChar) = isWs := funext isWs_ucChar
  simp [jsTrim, jsToUpper, List.dropWhile_map, h, ← List.map_reverse]

theorem jsTrim_jsToLower (l : JsStr) : jsTrim (jsToLower l) = jsToLower (jsTrim l) := by
  have h : (isWs ∘ lcChar) = isWs := funext isWs_lcChar
  simp [jsTrim, jsToLower, List.dropWhile_map, h, ← List.map_reverse]

theorem dropWhile_head_false {p : Nat → Bool} {l : JsStr} {a : Nat}
    (h : (l.dropWhile p).head? = some a) : p a = false := by
  have := List.head?_dropWhile_not p l
  rw [h] at this
  exact this

theorem dropWhile_eq_self_of_head {p : Nat → Bool} {l : JsStr}
    (h : ∀ a, l.head? = some a → p a = false) : l.dropWhile p = l := by
  cases l with
  | nil => rfl
  | cons x xs => simp [List.dropWhile_cons, h x rfl]

theorem dropWhile_dropWhile (p : Nat → Bool) (l : JsStr) :
    (l.dropWhile p).dropWhile p = l.dropWhile p :=
  dropWhile_eq_self_of_head fun _ ha => dropWhile_head_false ha

theorem jsTrim_jsTrim (l : JsStr) : jsTrim (jsTrim l) = jsTrim l := by
  unfold jsTrim
  set A := l.dropWhile isWs with hA
  set B := A.reverse.dropWhile isWs with hB
  have hBA : ∃ t, t ++ B = A.reverse := List.dropWhile_suffix isWs
  have h1 : B.reverse.dropWhile isWs = B.reverse := by
    apply dropWhile_eq_self_of_head
    intro a ha
    obtain ⟨t, ht⟩ := hBA
    have hAeq : A = B.reverse ++ t.reverse := by
      rw [← List.reverse_reverse A, ← ht, List.reverse_append]
    have hheadA : A.head? = some a := by
      rw [hAeq, List.head?_append, ha]
      rfl
    exact dropWhile_head_false (hA ▸ hheadA)
  rw [h1, List.reverse_reverse, hB, dropWhile_dropWhile]

/-- The normalization `trim().toUpperCase()` used on referral codes is
idempotent. -/
theorem normCode_idem (s : JsStr) :
    jsToUpper (jsTrim (jsToUpper (jsTrim s))) = jsToUpper (jsTrim s) := by
  rw [jsTrim_jsToUpper, jsTrim_jsTrim, jsToUpper_jsToUpper]

/-- The normalization `trim().toLowerCase()` used on emails is
idempotent. -/
theorem normEmail_idem (s : JsStr) :
    jsToLower (jsTrim (jsToLower (jsTrim s))) = jsToLower (jsTrim s) := by
  rw [jsTrim_jsToLower, jsTrim_jsTrim, jsToLower_jsToLower]

/-! ### Lemmas: `updateFirst` -/

theorem updateFirst_length (p : User → Bool) (f : User → User) (l : List User) :
    (updateFirst p f l).length = l.length := by
  induction l with
  | nil => rfl
  | cons u us ih =>
    by_cases hp : p u <;> simp [updateFirst, hp, ih]

theorem updateFirst_map_invariant {β : Type} {g : User → β} {f : User → User}
    (hf : ∀ u, g (f u) = g u) (p : User → Bool) (l : List User) :
    (updateFirst p f l).map g = l.map g := by
  induction l with
  | nil => rfl
  | cons u us ih =>
    by_cases hp : p u <;> simp [updateFirst, hp, ih, hf]

theorem updateFirst_of_find? {p : User → Bool} (f : User → User) {l : List User}
    {v : User} (h : l.find? p = some v) :
    ∃ k : Nat, l[k]? = some v ∧ (updateFirst p f l)[k]? = some (f v) ∧
      ∀ j : Nat, j ≠ k → (updateFirst p f l)[j]? = l[j]? := by
  induction l with
  | nil => simp at h
  | cons u us ih =>
    by_cases hp : p u
    · rw [List.find?_cons_of_pos _ hp, Option.some_inj] at h
      subst h
      refine ⟨0, by simp, by simp [updateFirst, hp], ?_⟩
      intro j hj
      cases j with
      | zero => exact absurd rfl hj
      | succ j => simp [updateFirst, hp]
    · rw [List.find?_cons_of_neg _ hp] at h
      obtain ⟨k, h1, h2, h3⟩ := ih h
      refine ⟨k + 1, by simpa using h1, by simp [updateFirst, hp]; exact h2, ?_⟩
      intro j hj
      cases j with
      | zero => simp [updateFirst, hp]
      | succ j =>
        simp only [updateFirst, if_neg hp, List.getElem?_cons_succ]
        exact h3 j (by omega)

theorem updateFirst_append_left {p : User → Bool} {f : User → User}
    {l₁ : List User} {v : User} (l₂ : List User) (h : l₁.find? p = some v) :
    updateFirst p f (l₁ ++ l₂) = updateFirst p f l₁ ++ l₂ := by
  induction l₁ with
  | nil => simp at h
  | cons u us ih =>
    by_cases hp : p u
    · simp [updateFirst, hp]
    · rw [List.find?_cons_of_neg _ hp] at h
      simp [updateFirst, hp, ih h]

/-! ### Lemmas: the stable descending sort -/


theorem insertByPointsDesc_perm (u : User) (l : List User) :
    List.Perm (insertByPointsDesc u l) (u :: l) := by
  induction l with
  | nil => rfl
  | cons v vs ih =>
    by_cases hlt : u.points < v.points
    · simp only [insertByPointsDesc, if_pos hlt]
      exact (ih.cons v).trans (List.Perm.swap u v vs)
    · simp [insertByPointsDesc, hlt]

theorem sortByPointsDesc_perm (l : List User) :
    List.Perm (sortByPointsDesc l) l := by
  induction l with
  | nil => rfl
  | cons u us ih =>
    exact (insertByPointsDesc_perm u (sortByPointsDesc us)).trans (ih.cons u)

theorem insertByPointsDesc_sorted {l : List User} (u : User)
    (h : SortedDesc l) : SortedDesc (insertByPointsDesc u l) := by
  induction l with
  | nil => simp [insertByPointsDesc, SortedDesc]
  | cons v vs ih =>
    rw [SortedDesc, List.pairwise_cons] at h
    obtain ⟨h1, h2⟩ := h
    by_cases hlt : u.points < v.points
    · simp only [insertByPointsDesc, if_pos hlt]
      rw [SortedDesc, List.pairwise_cons]
      refine ⟨?_, ih h2⟩
      intro w hw
      rcases List.mem_cons.mp (((insertByPointsDesc_perm u vs).mem_iff).mp hw)
        with hw' | hw'
      · exact hw' ▸ le_of_lt hlt
      · exact h1 w hw'
    · simp only [insertByPointsDesc, if_neg hlt]
      rw [SortedDesc, List.pairwise_cons]
      refine ⟨?_, List.pairwise_cons.mpr ⟨h1, h2⟩⟩
      intro w hw
      rcases List.mem_cons.mp hw with hw' | hw'
      · exact hw' ▸ Int.not_lt.mp hlt
      · exact le_trans (h1 w hw') (Int.not_lt.mp hlt)

theorem sortByPointsDesc_sorted (l : List User) : SortedDesc (sortByPointsDesc l) := by
  induction l with
  | nil => simp [sortByPointsDesc, SortedDesc]
  | cons u us ih => exact insertByPointsDesc_sorted u ih

/-! ### Lemmas: code generation -/

theorem hexDigit_alnum {m : Nat} (hm : m < 16) :
    (65 ≤ ucChar (hexDigit m) ∧ ucChar (hexDigit m) ≤ 90) ∨
      (48 ≤ ucChar (hexDigit m) ∧ ucChar (hexDigit m) ≤ 57) := by
  unfold hexDigit ucChar
  split <;> split <;> omega

theorem candidate_valid (b : Nat × Nat × Nat) :
    isValidReferralCode (candidate b) = true := by
  obtain ⟨x, y, z⟩ := b
  have hlen : (jsToUpper (byteHex x ++ byteHex y ++ byteHex z)).length = 6 := by
    simp [jsToUpper, byteHex]
  rw [candidate]
  simp only [hlen]
  rw [if_neg (by omega)]
  simp only [isValidReferralCode, jsToUpper, byteHex, referralCodeLength,
    List.map_append, List.map_cons, List.map_nil, List.cons_append, List.nil_append,
    List.all_cons, List.all_nil, Bool.and_eq_true, decide_eq_true_eq]
  refine ⟨by simp, ?_, ?_, ?_, ?_, ?_, ?_, trivial⟩ <;>
    exact hexDigit_alnum (by omega)

theorem genAux_ok_spec {users : List User} {e : Nat → Nat × Nat × Nat} :
    ∀ fuel attempts code, genAux users e attempts fuel = .ok code →
      collides users code = false ∧ ∃ k, attempts ≤ k ∧ code = candidate (e k) := by
  intro fuel
  induction fuel with
  | zero => intro a c h; simp [genAux] at h
  | succ fuel ih =>
    intro a c h
    rw [genAux] at h
    by_cases hc : collides users (candidate (e a)) = true
    · rw [if_pos hc] at h
      obtain ⟨h1, k, hk, hcode⟩ := ih (a + 1) c h
      exact ⟨h1, k, by omega, hcode⟩
    · rw [if_neg hc] at h
      injection h with h
      exact ⟨h ▸ Bool.eq_false_iff.mpr hc, a, le_refl a, h.symm⟩

theorem genAux_finds {users : List User} {e : Nat → Nat × Nat × Nat} :
    ∀ fuel attempts,
      (∃ j, j < fuel ∧ collides users (candidate (e (attempts + j))) = false) →
      ∃ j, j < fuel ∧ genAux users e attempts fuel = .ok (candidate (e (attempts + j))) ∧
        collides users (candidate (e (attempts + j))) = false ∧
        ∀ i, i < j → collides users (candidate (e (attempts + i))) = true := by
  intro fuel
  induction fuel with
  | zero => intro a ⟨j, hj, _⟩; omega
  | succ fuel ih =>
    intro a ⟨j, hj, hfresh⟩
    by_cases hc : collides users (candidate (e a)) = true
    · have hj0 : j ≠ 0 := by
        intro h0
        rw [h0, Nat.add_zero] at hfresh
        rw [hfresh] at hc
        exact Bool.false_ne_true hc
      have hstep : a + 1 + (j - 1) = a + j := by omega
      obtain ⟨j', hj', hok, hfr', hall'⟩ :=
        ih (a + 1) ⟨j - 1, by omega, by rw [hstep]; exact hfresh⟩
      refine ⟨j' + 1, by omega, ?_, ?_, ?_⟩
      · rw [genAux, if_pos hc]
        rw [show a + (j' + 1) = a + 1 + j' by omega]
        exact hok
      · rw [show a + (j' + 1) = a + 1 + j' by omega]
        exact hfr'
      · intro i hi
        cases i with
        | zero => rw [Nat.add_zero]; exact hc
        | succ i =>
          rw [show a + (i + 1) = a + 1 + i by omega]
          exact hall' i (by omega)
    · refine ⟨0, by omega, ?_, ?_, by omega⟩
      · rw [genAux, if_neg hc, Nat.add_zero]
      · rw [Nat.add_zero]
        exact Bool.eq_false_iff.mpr hc

/-! ### Lemmas: sanitization shapes -/


theorem sanitizeField_error_of_tns {v : JsVal} (f : JsStr → JsStr)
    (h : truthyNonString v = true) : sanitizeField v f = .error () := by
  unfold truthyNonString at h
  rw [Bool.and_eq_true] at h
  unfold sanitizeField
  rw [if_pos h.1]
  cases v with
  | str s => simp [isStringVal] at h
  | undef => rfl
  | nullV => rfl
  | num n => rfl
  | boolV b => rfl

theorem sanitizeField_ok_of_falsy {v : JsVal} (f : JsStr → JsStr)
    (h : truthy v = false) : sanitizeField v f = .ok none := by
  unfold sanitizeField
  rw [if_neg (by simp [h])]

theorem sanitizeField_ok_of_not_tns {v : JsVal} (f : JsStr → JsStr)
    (h : truthyNonString v = false) : ∃ o, sanitizeField v f = .ok o := by
  cases v with
  | str s =>
    by_cases hs : truthy (JsVal.str s) = true
    · exact ⟨some (f s), by unfold sanitizeField; rw [if_pos hs]⟩
    · exact ⟨none, sanitizeField_ok_of_falsy f (Bool.eq_false_iff.mpr hs)⟩
  | undef => exact ⟨none, sanitizeField_ok_of_falsy f rfl⟩
  | nullV => exact ⟨none, sanitizeField_ok_of_falsy f rfl⟩
  | num n =>
    have ht : truthy (JsVal.num n) = false := by
      simpa [truthyNonString, isStringVal] using h
    exact ⟨none, sanitizeField_ok_of_falsy f ht⟩
  | boolV b =>
    have ht : truthy (JsVal.boolV b) = false := by
      simpa [truthyNonString, isStringVal] using h
    exact ⟨none, sanitizeField_ok_of_falsy f ht⟩

theorem sanitizeField_shape {v : JsVal} {f : JsStr → JsStr} {o : Option JsStr}
    (h : sanitizeField v f = .ok o) : o = none ∨ ∃ s, o = some (f s) := by
  unfold sanitizeField at h
  by_cases ht : truthy v = true
  · rw [if_pos ht] at h
    cases v with
    | str s => injection h with h; exact Or.inr ⟨s, h.symm⟩
    | undef => cases h
    | nullV => cases h
    | num n => cases h
    | boolV b => cases h
  · rw [if_neg ht] at h
    injection h with h
    exact Or.inl h.symm

theorem sanitize_ok_shape {input : UserInput} {sd : Sanitized}
    (h : sanitizeUserInput input = .ok sd) :
    (sd.name = none ∨ ∃ s, sd.name = some (jsTrim s)) ∧
    (sd.email = none ∨ ∃ s, sd.email = some (jsToLower (jsTrim s))) ∧
    (sd.referralCode = none ∨ ∃ s, sd.referralCode = some (jsToUpper (jsTrim s))) := by
  unfold sanitizeUserInput at h
  cases hn : sanitizeField input.name jsTrim with
  | error u => rw [hn] at h; simp [Bind.bind, Except.bind] at h
  | ok n =>
    rw [hn] at h
    simp only [Bind.bind, Except.bind] at h
    cases he : sanitizeField input.email (fun s => jsToLower (jsTrim s)) with
    | error u => rw [he] at h; simp at h
    | ok eo =>
      rw [he] at h
      simp only at h
      cases hr : sanitizeField input.referralCode (fun s => jsToUpper (jsTrim s)) with
      | error u => rw [hr] at h; simp at h
      | ok r =>
        rw [hr] at h
        simp only at h
        injection h with h
        rw [← h]
        exact ⟨sanitizeField_shape hn, sanitizeField_shape he, sanitizeField_shape hr⟩

/-! ### Lemmas: what a passing validation says about each field -/

theorem emailErrors_nil {v : JsVal} (h : emailErrors v = []) :
    ∃ s, v = .str s ∧ s.isEmpty = false := by
  cases v with
  | str s =>
    by_cases hs : s.isEmpty = true
    · simp [emailErrors, hs] at h
    · exact ⟨s, rfl, Bool.eq_false_iff.mpr hs⟩
  | undef => simp [emailErrors] at h
  | nullV => simp [emailErrors] at h
  | num n => simp [emailErrors] at h
  | boolV b => simp [emailErrors] at h

theorem validation_components_nil {u : UserInput}
    (h : (validateUserInput u).isValid ≠ false) :
    nameErrors u.name = [] ∧ emailErrors u.email = [] ∧
      rcErrors u.referralCode = [] := by
  have hv : (validateUserInput u).isValid = true := by
    cases hb : (validateUserInput u).isValid
    · exact absurd hb h
    · rfl
  unfold validateUserInput at hv
  simp only [List.isEmpty_iff, List.append_eq_nil] at hv
  exact ⟨hv.1.1, hv.1.2, hv.2⟩

/-! ### The directory invariant (claim C2) -/

theorem inv_transport_maps {st st' : ServiceState}
    (hemail : st'.users.map (fun u => u.email) = st.users.map fun u => u.email)
    (hcode : st'.users.map (fun u => u.referralCode) = st.users.map fun u => u.referralCode)
    (hid : st'.users.map (fun u => u.id) = st.users.map fun u => u.id)
    (hnext : st.nextUserId ≤ st'.nextUserId ∧ st'.nextUserId = st.nextUserId ∨
        st'.nextUserId = st.nextUserId + 1)
    (h : Inv st ∧ StoredNormalized st) : Inv st' ∧ StoredNormalized st' := by
  obtain ⟨⟨h1, h2, h3, h4, h5⟩, h6⟩ := h
  have hnext' : st.nextUserId ≤ st'.nextUserId := by
    rcases hnext with ⟨_, hb⟩ | hb <;> omega
  have hlower : st'.users.map (fun u => jsToLower u.email) =
      st.users.map fun u => jsToLower u.email := by
    have e1 : st'.users.map (fun u => jsToLower u.email) =
        (st'.users.map fun u => u.email).map jsToLower := by
      rw [List.map_map]; rfl
    have e2 : st.users.map (fun u => jsToLower u.email) =
        (st.users.map fun u => u.email).map jsToLower := by
      rw [List.map_map]; rfl
    rw [e1, e2, hemail]
  refine ⟨⟨?_, ?_, ?_, ?_, ?_⟩, ?_⟩
  · rw [hlower]; exact h1
  · rw [hcode]; exact h2
  · intro u hu
    have : u.referralCode ∈ st'.users.map fun u => u.referralCode :=
      List.mem_map_of_mem _ hu
    rw [hcode] at this
    obtain ⟨v, hv, hveq⟩ := List.mem_map.mp this
    exact hveq ▸ h3 v hv
  · intro u hu
    have : u.id ∈ st'.users.map fun u => u.id := List.mem_map_of_mem _ hu
    rw [hid] at this
    obtain ⟨v, hv, hveq⟩ := List.mem_map.mp this
    exact lt_of_lt_of_le (hveq ▸ h4 v hv) hnext'
  · rw [hid]; exact h5
  · intro u hu
    have : u.email ∈ st'.users.map fun u => u.email := List.mem_map_of_mem _ hu
    rw [hemail] at this
    obtain ⟨v, hv, hveq⟩ := List.mem_map.mp this
    rw [← hveq]
    exact h6 v hv

theorem inv_transport_perm {st st' : ServiceState}
    (hperm : List.Perm st'.users st.users)
    (hnext : st'.nextUserId = st.nextUserId)
    (h : Inv st ∧ StoredNormalized st) : Inv st' ∧ StoredNormalized st' := by
  obtain ⟨⟨h1, h2, h3, h4, h5⟩, h6⟩ := h
  refine ⟨⟨?_, ?_, ?_, ?_, ?_⟩, ?_⟩
  · exact ((hperm.map _).nodup_iff).mpr h1
  · exact ((hperm.map _).nodup_iff).mpr h2
  · exact fun u hu => h3 u (hperm.mem_iff.mp hu)
  · exact fun u hu => hnext ▸ h4 u (hperm.mem_iff.mp hu)
  · exact ((hperm.map _).nodup_iff).mpr h5
  · exact fun u hu => h6 u (hperm.mem_iff.mp hu)

theorem inv_append {st : ServiceState} {nu : User}
    (h : Inv st ∧ StoredNormalized st)
    (hmail : ∀ u ∈ st.users, u.email ≠ nu.email)
    (hmailfix : jsToLower nu.email = nu.email)
    (hcode : ∀ u ∈ st.users, u.referralCode ≠ nu.referralCode)
    (hcodev : isValidReferralCode nu.referralCode = true)
    (hid : nu.id = st.nextUserId) :
    Inv ⟨st.users ++ [nu], st.nextUserId + 1⟩ ∧
      StoredNormalized ⟨st.users ++ [nu], st.nextUserId + 1⟩ := by
  obtain ⟨⟨h1, h2, h3, h4, h5⟩, h6⟩ := h
  refine ⟨⟨?_, ?_, ?_, ?_, ?_⟩, ?_⟩
  · rw [List.map_append, List.nodup_append]
    refine ⟨h1, List.nodup_singleton _, ?_⟩
    intro a ha hb
    simp only [List.map_cons, List.map_nil, List.mem_singleton] at hb
    obtain ⟨v, hv, hveq⟩ := List.mem_map.mp ha
    apply hmail v hv
    rw [← h6 v hv, hveq, hb, hmailfix]
  · rw [List.map_append, List.nodup_append]
    refine ⟨h2, List.nodup_singleton _, ?_⟩
    intro a ha hb
    simp only [List.map_cons, List.map_nil, List.mem_singleton] at hb
    obtain ⟨v, hv, hveq⟩ := List.mem_map.mp ha
    exact hcode v hv (hveq.trans hb)
  · intro u hu
    rcases List.mem_append.mp hu with hu' | hu'
    · exact h3 u hu'
    · rw [List.mem_singleton.mp hu']
      exact hcodev
  · intro u hu
    rcases List.mem_append.mp hu with hu' | hu'
    · exact lt_trans (h4 u hu') (Nat.lt_succ_self _)
    · rw [List.mem_singleton.mp hu', hid]
      exact Nat.lt_succ_self _
  · rw [List.map_append, List.nodup_append]
    refine ⟨h5, List.nodup_singleton _, ?_⟩
    intro a ha hb
    simp only [List.map_cons, List.map_nil, List.mem_singleton] at hb
    obtain ⟨v, hv, hveq⟩ := List.mem_map.mp ha
    have := h4 v hv
    omega
  · intro u hu
    rcases List.mem_append.mp hu with hu' | hu'
    · exact h6 u hu'
    · rw [List.mem_singleton.mp hu']
      exact hmailfix

/-! ### Characterizing a successful creation step -/

theorem jsOfOpt_eq_str {o : Option JsStr} {s : JsStr} (h : jsOfOpt o = .str s) :
    o = some s := by
  cases o with
  | none => cases h
  | some x => injection h with h; rw [h]

theorem truthy_jsOfOpt {o : Option JsStr} (h : truthy (jsOfOpt o) = true) :
    ∃ c, o = some c ∧ c.isEmpty = false := by
  cases o with
  | none => cases h
  | some c => exact ⟨c, rfl, by simpa [jsOfOpt, truthy] using h⟩

theorem createAndAward_ok {st : ServiceState} {sd : Sanitized}
    {e : Nat → Nat × Nat × Nat} {now : Nat} {code : JsStr}
    (hgen : generateReferralCode st.users e = .ok code) :
    ∃ nu users2,
      createAndAward st sd e now =
        ({ success := true, statusCode := 201, error := none, user := some nu },
         ⟨users2, st.nextUserId + 1⟩) ∧
      nu = { id := st.nextUserId, name := sd.name.getD [], email := sd.email.getD [],
             referralCode := code, points := initialPoints,
             createdAt := now, updatedAt := now } ∧
      (users2 = st.users ++ [nu] ∨
        ∃ c, sd.referralCode = some c ∧
          users2 = updateFirst (fun u => u.referralCode == jsToUpper (jsTrim c))
            (fun u => { u with points := u.points + referralBonus, updatedAt := now })
            (st.users ++ [nu])) ∧
      (truthy (jsOfOpt sd.referralCode) = false → users2 = st.users ++ [nu]) ∧
      (∀ c, sd.referralCode = some c →
        (findUserByReferralCode (st.users ++ [nu]) (.str c)).isSome = true →
        users2 = updateFirst (fun u => u.referralCode == jsToUpper (jsTrim c))
          (fun u => { u with points := u.points + referralBonus, updatedAt := now })
          (st.users ++ [nu])) := by
  unfold createAndAward
  rw [hgen]
  refine ⟨_, _, rfl, rfl, ?_, ?_, ?_⟩
  · by_cases htr : truthy (jsOfOpt sd.referralCode) = true
    · obtain ⟨c, hc, -⟩ := truthy_jsOfOpt htr
      rw [if_pos htr]
      simp only [hc]
      split
      · exact Or.inr ⟨c, rfl, rfl⟩
      · exact Or.inl rfl
    · rw [if_neg htr]
      exact Or.inl rfl
  · intro htr
    rw [if_neg (by rw [htr]; exact Bool.false_ne_true)]
  · intro c hcc hfound
    have hcne : c.isEmpty = false := by
      cases hce : c.isEmpty
      · rfl
      · simp [findUserByReferralCode, List.isEmpty_iff.mp hce] at hfound
    have htr : truthy (jsOfOpt sd.referralCode) = true := by
      rw [hcc]
      simp [jsOfOpt, truthy, hcne]
    rw [if_pos htr]
    simp only [hcc]
    rw [if_pos hfound]

/-! ### Preservation of the invariant by each operation -/

theorem inv_register {st : ServiceState} (h : Inv st ∧ StoredNormalized st)
    (input : UserInput) (e : Nat → Nat × Nat × Nat) (now : Nat) :
    Inv (registerUser st input e now).2 ∧
      StoredNormalized (registerUser st input e now).2 := by
  cases hsan : sanitizeUserInput input with
  | error u =>
    have hred : registerUser st input e now =
        ({ success := false, statusCode := 500, error := some msgInternal,
           user := none }, st) := by
      unfold registerUser
      rw [hsan]
    rw [hred]
    exact h
  | ok sd =>
    have hred : registerUser st input e now = registerCore st sd e now := by
      unfold registerUser
      rw [hsan]
    rw [hred]
    simp only [registerCore]
    by_cases hval : (validateUserInput
        { name := jsOfOpt sd.name, email := jsOfOpt sd.email,
          referralCode := jsOfOpt sd.referralCode }).isValid = false
    · rw [if_pos hval]; exact h
    · rw [if_neg hval]
      cases hfe : findUserByEmail st.users (jsOfOpt sd.email) with
      | some u0 => exact h
      | none =>
        by_cases hrc : truthy (jsOfOpt sd.referralCode) = true ∧
            findUserByReferralCode st.users (jsOfOpt sd.referralCode) = none
        · rw [if_pos hrc]; exact h
        · rw [if_neg hrc]
          cases hgen : generateReferralCode st.users e with
          | error u =>
            unfold createAndAward
            rw [hgen]
            dsimp only
            refine inv_transport_maps ?_ ?_ ?_ (Or.inr ?_) h
            · rfl
            · rfl
            · rfl
            · rfl
          | ok code =>
            obtain ⟨nu, users2, heq, hnu, husers2, -, -⟩ :=
              @createAndAward_ok st sd e now code hgen
            rw [heq]
            dsimp only
            obtain ⟨-, hemail0, -⟩ := validation_components_nil hval
            obtain ⟨em, hem, hemne⟩ := emailErrors_nil hemail0
            have hsdem : sd.email = some em := jsOfOpt_eq_str hem
            obtain ⟨-, hemshape, -⟩ := sanitize_ok_shape hsan
            rcases hemshape with hbad | ⟨s0, hs0⟩
            · rw [hsdem] at hbad; cases hbad
            · rw [hsdem] at hs0
              injection hs0 with hs0
              have hnuemail : nu.email = em := by rw [hnu]; simp [hsdem]
              have hfix2 : jsToLower (jsTrim em) = em := by
                rw [hs0]; exact normEmail_idem s0
              rw [hsdem] at hfe
              simp only [jsOfOpt, findUserByEmail] at hfe
              rw [if_neg (by simp [hemne])] at hfe
              have hmail : ∀ u ∈ st.users, u.email ≠ nu.email := by
                intro u hu heq2
                have hne := List.find?_eq_none.mp hfe u hu
                apply hne
                rw [beq_iff_eq, hfix2]
                rw [hnuemail] at heq2
                exact heq2
              have hmailfix : jsToLower nu.email = nu.email := by
                rw [hnuemail, hs0]
                exact jsToLower_jsToLower _
              unfold generateReferralCode at hgen
              obtain ⟨hcol, k, -, hcand⟩ := genAux_ok_spec 99 0 code hgen
              have hnucode : nu.referralCode = code := by rw [hnu]
              have hcodev : isValidReferralCode nu.referralCode = true := by
                rw [hnucode, hcand]
                exact candidate_valid (e k)
              have hcodefresh : ∀ u ∈ st.users, u.referralCode ≠ nu.referralCode := by
                intro u hu heq2
                unfold collides at hcol
                rw [List.any_eq_false] at hcol
                exact hcol u hu (by rw [beq_iff_eq, heq2, hnucode])
              have hid : nu.id = st.nextUserId := by rw [hnu]
              have hbase := inv_append h hmail hmailfix hcodefresh hcodev hid
              have hm : ∀ {β : Type} (g : User → β),
                  (∀ w p t, g { w with points := p, updatedAt := t } = g w) →
                  users2.map g = (st.users ++ [nu]).map g := by
                intro β g hg
                rcases husers2 with h2 | ⟨c, -, h2⟩
                · rw [h2]
                · rw [h2]
                  exact updateFirst_map_invariant (fun w => hg w _ _) _ _
              refine inv_transport_maps ?_ ?_ ?_ (Or.inl ⟨?_, ?_⟩) hbase
              · exact hm (fun u => u.email) fun w p t => rfl
              · exact hm (fun u => u.referralCode) fun w p t => rfl
              · exact hm (fun u => u.id) fun w p t => rfl
              · exact le_refl _
              · rfl

theorem inv_updateUserPoints {st : ServiceState} (h : Inv st ∧ StoredNormalized st)
    (userId : Nat) (points : Int) (now : Nat) :
    Inv (updateUserPoints st userId points now).2 ∧
      StoredNormalized (updateUserPoints st userId points now).2 := by
  unfold updateUserPoints
  cases hf : getUserById st.users userId with
  | none => exact h
  | some u =>
    dsimp only
    refine inv_transport_maps ?_ ?_ ?_ (Or.inl ⟨?_, ?_⟩) h
    · refine updateFirst_map_invariant ?_ _ _
      intro w
      rfl
    · refine updateFirst_map_invariant ?_ _ _
      intro w
      rfl
    · refine updateFirst_map_invariant ?_ _ _
      intro w
      rfl
    · exact le_refl _
    · rfl

theorem inv_stats {st : ServiceState} (h : Inv st ∧ StoredNormalized st) :
    Inv (getUserStatistics st).2 ∧ StoredNormalized (getUserStatistics st).2 :=
  inv_transport_perm (sortByPointsDesc_perm st.users) rfl h

theorem seed_inv : Inv seedState ∧ StoredNormalized seedState := by
  constructor
  · refine ⟨by decide, by decide, by decide, by decide, by decide⟩
  · intro u hu
    fin_cases hu <;> decide

theorem inv_of_reachable {st : ServiceState} (h : Reachable st) :
    Inv st ∧ StoredNormalized st := by
  induction h with
  | seed => exact seed_inv
  | register input e now _ ih => exact inv_register ih input e now
  | update userId points now _ ih => exact inv_updateUserPoints ih userId points now
  | stats _ ih => exact inv_stats ih

/-! ### Claim C1: the referral credit -/


/-- C1: if `Register` succeeds and the sanitized input carried a referral
code that resolves (against the pre-call directory) to a referrer `ref`,
then exactly that referrer — the first stored user with the code — has
its `points` increased by exactly the configured bonus and its
`updatedAt` refreshed; every other pre-existing user's record (hence its
points) is unchanged, and the new user is appended with the configured
initial points.  A successful `Register` whose sanitized input carries no
(truthy) referral code leaves every pre-existing user's record unchanged.
The configured bonus is 10 and the configured initial points are 0. -/
theorem referral_credit (st : ServiceState) (input : UserInput)
    (e : Nat → Nat × Nat × Nat) (now : Nat) :
    (∀ sd c ref, sanitizeUserInput input = .ok sd → sd.referralCode = some c →
      findUserByReferralCode st.users (.str c) = some ref →
      (registerUser st input e now).1.success = true →
      ∃ k : Nat, st.users[k]? = some ref ∧
        (registerUser st input e now).2.users[k]? =
          some { ref with points := ref.points + referralBonus, updatedAt := now } ∧
        (∀ j : Nat, j < st.users.length → j ≠ k →
          (registerUser st input e now).2.users[j]? = st.users[j]?) ∧
        (registerUser st input e now).2.users.length = st.users.length + 1 ∧
        ∃ nu, (registerUser st input e now).2.users[st.users.length]? = some nu ∧
          nu.points = initialPoints ∧ nu.createdAt = now ∧ nu.updatedAt = now) ∧
    (∀ sd, sanitizeUserInput input = .ok sd →
      truthy (jsOfOpt sd.referralCode) = false →
      (registerUser st input e now).1.success = true →
      (∀ j : Nat, j < st.users.length →
        (registerUser st input e now).2.users[j]? = st.users[j]?) ∧
      (registerUser st input e now).2.users.length = st.users.length + 1 ∧
      ∃ nu, (registerUser st input e now).2.users[st.users.length]? = some nu ∧
        nu.points = initialPoints) ∧
    referralBonus = 10 ∧ initialPoints = 0 := by
  refine ⟨?_, ?_, rfl, rfl⟩
  · intro sd c ref hsan hrc hfind hsucc
    have hred : registerUser st input e now = registerCore st sd e now := by
      unfold registerUser
      rw [hsan]
    rw [hred] at hsucc ⊢
    simp only [registerCore] at hsucc ⊢
    by_cases hval : (validateUserInput
        { name := jsOfOpt sd.name, email := jsOfOpt sd.email,
          referralCode := jsOfOpt sd.referralCode }).isValid = false
    · rw [if_pos hval] at hsucc
      simp at hsucc
    · rw [if_neg hval] at hsucc ⊢
      cases hfe : findUserByEmail st.users (jsOfOpt sd.email) with
      | some u0 => simp only [hfe] at hsucc; simp at hsucc
      | none =>
        simp only [hfe] at hsucc ⊢
        have hgate : ¬(truthy (jsOfOpt sd.referralCode) = true ∧
            findUserByReferralCode st.users (jsOfOpt sd.referralCode) = none) := by
          rintro ⟨-, h2⟩
          rw [hrc] at h2
          simp only [jsOfOpt] at h2
          rw [hfind] at h2
          cases h2
        rw [if_neg hgate] at hsucc ⊢
        cases hgen : generateReferralCode st.users e with
        | error u =>
          unfold createAndAward at hsucc
          rw [hgen] at hsucc
          simp at hsucc
        | ok code =>
          obtain ⟨nu, users2, heq, hnu, -, -, hC⟩ := @createAndAward_ok st sd e now code hgen
          rw [heq]
          dsimp only
          have hcne : c.isEmpty = false := by
            cases hce : c.isEmpty
            · rfl
            · simp [findUserByReferralCode, List.isEmpty_iff.mp hce] at hfind
          have hfind2 : st.users.find?
              (fun u => u.referralCode == jsToUpper (jsTrim c)) = some ref := by
            simp only [findUserByReferralCode] at hfind
            rw [if_neg (by simp [hcne])] at hfind
            exact hfind
          have hfound1 : (findUserByReferralCode (st.users ++ [nu]) (.str c)).isSome
              = true := by
            have h9 : findUserByReferralCode (st.users ++ [nu]) (.str c) = some ref := by
              simp only [findUserByReferralCode]
              rw [if_neg (by simp [hcne])]
              rw [List.find?_append, hfind2]
              rfl
            rw [h9]
            rfl
          have husers2 := hC c hrc hfound1
          rw [updateFirst_append_left [nu] hfind2] at husers2
          obtain ⟨k, hk1, hk2, hk3⟩ := updateFirst_of_find?
            (fun u => { u with points := u.points + referralBonus, updatedAt := now })
            hfind2
          have hklt : k < st.users.length := by
            by_contra hge
            rw [List.getElem?_eq_none (by omega)] at hk1
            cases hk1
          have hlen2 : (updateFirst (fun u => u.referralCode == jsToUpper (jsTrim c))
              (fun u => { u with points := u.points + referralBonus, updatedAt := now })
              st.users).length = st.users.length := updateFirst_length _ _ _
          refine ⟨k, hk1, ?_, ?_, ?_, nu, ?_, ?_, ?_, ?_⟩
          · rw [husers2, List.getElem?_append_left (by rw [hlen2]; exact hklt), hk2]
          · intro j hj hjk
            rw [husers2, List.getElem?_append_left (by rw [hlen2]; exact hj), hk3 j hjk]
          · rw [husers2, List.length_append, hlen2]
            rfl
          · rw [husers2]
            rw [show st.users.length = (updateFirst
              (fun u => u.referralCode == jsToUpper (jsTrim c))
              (fun u => { u with points := u.points + referralBonus, updatedAt := now })
              st.users).length from hlen2.symm]
            rw [List.getElem?_concat_length]
          · rw [hnu]
          · rw [hnu]
          · rw [hnu]
  · intro sd hsan htr hsucc
    have hred : registerUser st input e now = registerCore st sd e now := by
      unfold registerUser
      rw [hsan]
    rw [hred] at hsucc ⊢
    simp only [registerCore] at hsucc ⊢
    by_cases hval : (validateUserInput
        { name := jsOfOpt sd.name, email := jsOfOpt sd.email,
          referralCode := jsOfOpt sd.referralCode }).isValid = false
    · rw [if_pos hval] at hsucc
      simp at hsucc
    · rw [if_neg hval] at hsucc ⊢
      cases hfe : findUserByEmail st.users (jsOfOpt sd.email) with
      | some u0 => simp only [hfe] at hsucc; simp at hsucc
      | none =>
        simp only [hfe] at hsucc ⊢
        have hgate : ¬(truthy (jsOfOpt sd.referralCode) = true ∧
            findUserByReferralCode st.users (jsOfOpt sd.referralCode) = none) := by
          rintro ⟨h1, -⟩
          rw [htr] at h1
          cases h1
        rw [if_neg hgate] at hsucc ⊢
        cases hgen : generateReferralCode st.users e with
        | error u =>
          unfold createAndAward at hsucc
          rw [hgen] at hsucc
          simp at hsucc
        | ok code =>
          obtain ⟨nu, users2, heq, hnu, -, hB, -⟩ := @createAndAward_ok st sd e now code hgen
          have husers2 := hB htr
          rw [heq]
          dsimp only
          refine ⟨?_, ?_, nu, ?_, ?_⟩
          · intro j hj
            rw [husers2, List.getElem?_append_left hj]
          · rw [husers2, List.length_append]
            rfl
          · rw [husers2, List.getElem?_concat_length]
          · rw [hnu]

/-- Witness for C1 at a concrete run: Alice refers John on the seed
directory; her points go from 0 to 10 and her `updatedAt` is refreshed. -/
theorem referral_credit_witness :
    ∃ k : Nat, seedState.users[k]? = some wAlice ∧
      (registerUser seedState wInputJohn wEntropy 9).2.users[k]? =
        some { wAlice with points := wAlice.points + referralBonus, updatedAt := 9 } ∧
      (∀ j : Nat, j < seedState.users.length → j ≠ k →
        (registerUser seedState wInputJohn wEntropy 9).2.users[j]? =
          seedState.users[j]?) ∧
      (registerUser seedState wInputJohn wEntropy 9).2.users.length =
        seedState.users.length + 1 ∧
      ∃ nu, (registerUser seedState wInputJohn wEntropy 9).2.users[seedState.users.length]? =
        some nu ∧ nu.points = initialPoints ∧ nu.createdAt = 9 ∧ nu.updatedAt = 9 :=
  (referral_credit seedState wInputJohn wEntropy 9).1 wSdJohn (jsStr "ABC123") wAlice
    rfl rfl (by decide) (by decide)

/-! ### Claim C6: duplicate email -/


/-- C6: when sanitization and validation pass but the normalized email
already belongs to a stored user (the case-insensitive lookup finds one),
`registerUser` returns the 409 "Email already exists" failure and the
state is completely unchanged (no user created, later steps unreached). -/
theorem duplicate_email_conflict (st : ServiceState) (input : UserInput)
    (e : Nat → Nat × Nat × Nat) (now : Nat) (sd : Sanitized)
    (hsan : sanitizeUserInput input = .ok sd)
    (hval : (validateUserInput
      { name := jsOfOpt sd.name, email := jsOfOpt sd.email,
        referralCode := jsOfOpt sd.referralCode }).isValid = true)
    (hdup : (findUserByEmail st.users (jsOfOpt sd.email)).isSome = true) :
    registerUser st input e now =
      ({ success := false, statusCode := 409, error := some msgEmailExists,
         user := none }, st) := by
  have hred : registerUser st input e now = registerCore st sd e now := by
    unfold registerUser
    rw [hsan]
  rw [hred]
  simp only [registerCore]
  rw [if_neg (by simp [hval])]
  cases hfe : findUserByEmail st.users (jsOfOpt sd.email) with
  | none => rw [hfe] at hdup; cases hdup
  | some u0 => rfl

/-- Witness for C6: re-registering Alice's seed email is rejected with
409 and the seed directory is untouched. -/
theorem duplicate_email_conflict_witness :
    registerUser seedState wInputDup wEntropy 9 =
      ({ success := false, statusCode := 409, error := some msgEmailExists,
         user := none }, seedState) :=
  duplicate_email_conflict seedState wInputDup wEntropy 9 wSdDup rfl (by decide)
    (by decide)

/-! ### Claim C9: failure atomicity of the 400/409 paths -/


/-- C9: whenever `registerUser` returns statusCode 400 or 409 (validation
failure, duplicate email, unresolved referral code) the state is returned
unchanged; this does not extend to the 500 path: on code-generation
exhaustion the result is 500 and the next-id counter has advanced. -/
theorem register_failure_atomic :
    (∀ (st : ServiceState) (input : UserInput) (e : Nat → Nat × Nat × Nat)
        (now : Nat),
      ((registerUser st input e now).1.statusCode = 400 ∨
        (registerUser st input e now).1.statusCode = 409) →
      (registerUser st input e now).2 = st) ∧
    (registerUser wStuckState wInputNew wZeroEntropy 0).1.statusCode = 500 ∧
    (registerUser wStuckState wInputNew wZeroEntropy 0).2.nextUserId =
      wStuckState.nextUserId + 1 := by
  refine ⟨?_, by decide, by decide⟩
  intro st input e now hcode
  cases hsan : sanitizeUserInput input with
  | error u =>
    have hred : registerUser st input e now =
        ({ success := false, statusCode := 500, error := some msgInternal,
           user := none }, st) := by
      unfold registerUser
      rw [hsan]
    rw [hred] at hcode ⊢
  | ok sd =>
    have hred : registerUser st input e now = registerCore st sd e now := by
      unfold registerUser
      rw [hsan]
    rw [hred] at hcode ⊢
    simp only [registerCore] at hcode ⊢
    by_cases hval : (validateUserInput
        { name := jsOfOpt sd.name, email := jsOfOpt sd.email,
          referralCode := jsOfOpt sd.referralCode }).isValid = false
    · rw [if_pos hval]
    · rw [if_neg hval] at hcode ⊢
      cases hfe : findUserByEmail st.users (jsOfOpt sd.email) with
      | some u0 => simp only [hfe]
      | none =>
        simp only [hfe] at hcode ⊢
        by_cases hrc : truthy (jsOfOpt sd.referralCode) = true ∧
            findUserByReferralCode st.users (jsOfOpt sd.referralCode) = none
        · rw [if_pos hrc]
        · rw [if_neg hrc] at hcode ⊢
          cases hgen : generateReferralCode st.users e with
          | error u =>
            unfold createAndAward at hcode
            rw [hgen] at hcode
            simp at hcode
          | ok code =>
            obtain ⟨nu, users2, heq, -, -, -, -⟩ :=
              @createAndAward_ok st sd e now code hgen
            rw [heq] at hcode
            simp at hcode

/-- Witness for C9: a 409 rejection leaves the seed directory unchanged. -/
theorem register_failure_atomic_witness :
    (registerUser seedState wInputDup wEntropy 9).2 = seedState :=
  register_failure_atomic.1 seedState wInputDup wEntropy 9 (Or.inr (by decide))

/-! ### Claim C10: truthy non-string fields hit the catch-all 500 -/


/-- C10: a truthy non-string `name`, `email` or `referralCode` makes
sanitization throw, which the workflow boundary catches as the generic
500 result with the state unchanged; by contrast, a falsy non-string
`name` (with the other fields sanitizable) flows into validation and
yields a 400 whose joined message contains the required-name error. -/
theorem register_type_errors (st : ServiceState) (input : UserInput)
    (e : Nat → Nat × Nat × Nat) (now : Nat) :
    ((truthyNonString input.name = true ∨ truthyNonString input.email = true ∨
        truthyNonString input.referralCode = true) →
      (registerUser st input e now).1 =
        { success := false, statusCode := 500, error := some msgInternal,
          user := none } ∧
      (registerUser st input e now).2 = st) ∧
    ((truthy input.name = false ∧ isStringVal input.name = false ∧
        truthyNonString input.email = false ∧
        truthyNonString input.referralCode = false) →
      (registerUser st input e now).1.success = false ∧
      (registerUser st input e now).1.statusCode = 400 ∧
      ∃ errs, (registerUser st input e now).1.error =
          some (List.intercalate (jsStr ", ") errs) ∧ msgNameRequired ∈ errs ∧
        (registerUser st input e now).2 = st) := by
  constructor
  · intro h
    have hsan : sanitizeUserInput input = .error () := by
      unfold sanitizeUserInput
      rcases h with h1 | h1 | h1
      · rw [sanitizeField_error_of_tns jsTrim h1]
        rfl
      · cases hn : sanitizeField input.name jsTrim with
        | error u => rfl
        | ok n =>
          rw [sanitizeField_error_of_tns (fun s => jsToLower (jsTrim s)) h1]
          rfl
      · cases hn : sanitizeField input.name jsTrim with
        | error u => rfl
        | ok n =>
          cases he : sanitizeField input.email (fun s => jsToLower (jsTrim s)) with
          | error u => rfl
          | ok eo =>
            rw [sanitizeField_error_of_tns (fun s => jsToUpper (jsTrim s)) h1]
            rfl
    have hred : registerUser st input e now =
        ({ success := false, statusCode := 500, error := some msgInternal,
           user := none }, st) := by
      unfold registerUser
      rw [hsan]
    rw [hred]
    exact ⟨rfl, rfl⟩
  · rintro ⟨hn, -, he, hr⟩
    have hnameok : sanitizeField input.name jsTrim = .ok none :=
      sanitizeField_ok_of_falsy _ hn
    obtain ⟨eo, heo⟩ := sanitizeField_ok_of_not_tns (fun s => jsToLower (jsTrim s)) he
    obtain ⟨ro, hro⟩ := sanitizeField_ok_of_not_tns (fun s => jsToUpper (jsTrim s)) hr
    have hsan : sanitizeUserInput input =
        .ok { name := none, email := eo, referralCode := ro } := by
      unfold sanitizeUserInput
      rw [hnameok, heo, hro]
      rfl
    have hred : registerUser st input e now =
        registerCore st { name := none, email := eo, referralCode := ro } e now := by
      unfold registerUser
      rw [hsan]
    rw [hred]
    simp only [registerCore]
    have hval : (validateUserInput
        { name := jsOfOpt (none : Option JsStr), email := jsOfOpt eo,
          referralCode := jsOfOpt ro }).isValid = false := by
      simp [validateUserInput, jsOfOpt, nameErrors]
    rw [if_pos hval]
    refine ⟨rfl, rfl, _, rfl, ?_, rfl⟩
    simp [validateUserInput, jsOfOpt, nameErrors]

/-- Witness for C10: a numeric name gives 500; a falsy boolean name gives
400 with the required-name message. -/
theorem register_type_errors_witness :
    ((registerUser seedState wInputNum wEntropy 0).1 =
      { success := false, statusCode := 500, error := some msgInternal,
        user := none } ∧
     (registerUser seedState wInputNum wEntropy 0).2 = seedState) ∧
    ((registerUser seedState wInputNoName wEntropy 0).1.success = false ∧
     (registerUser seedState wInputNoName wEntropy 0).1.statusCode = 400 ∧
     ∃ errs, (registerUser seedState wInputNoName wEntropy 0).1.error =
        some (List.intercalate (jsStr ", ") errs) ∧ msgNameRequired ∈ errs ∧
      (registerUser seedState wInputNoName wEntropy 0).2 = seedState) :=
  ⟨(register_type_errors seedState wInputNum wEntropy 0).1 (Or.inl (by decide)),
   (register_type_errors seedState wInputNoName wEntropy 0).2 (by decide)⟩

/-! ### Claim C7: statistics -/

/-- C7: `getUserStatistics` reports the user count, the sum of all
points, the half-up rounded average (0 on an empty directory, avoiding
the division by zero), and the top 5 users by descending points projected
to name/email/points; on the seed directory it reports 3 users, 70 total
points, average 23, and Carol, Bob, Alice in that order. -/
theorem statistics_spec (st : ServiceState) :
    (getUserStatistics st).1.totalUsers = st.users.length ∧
    (getUserStatistics st).1.totalPoints = (st.users.map fun u => u.points).sum ∧
    ((getUserStatistics st).1.averagePoints =
      if st.users.length = 0 then 0
      else jsRoundDiv ((st.users.map fun u => u.points).sum) st.users.length) ∧
    (∃ l, List.Perm l st.users ∧ SortedDesc l ∧
      (getUserStatistics st).1.topUsers = (l.take 5).map fun u =>
        { name := u.name, email := u.email, points := u.points : TopUser }) ∧
    (getUserStatistics seedState).1 =
      { totalUsers := 3, totalPoints := 70, averagePoints := 23,
        topUsers := [
          { name := jsStr "Carol Davis", email := jsStr "carol@example.com",
            points := 50 },
          { name := jsStr "Bob Smith", email := jsStr "bob@example.com",
            points := 20 },
          { name := jsStr "Alice Johnson", email := jsStr "alice@example.com",
            points := 0 }] } := by
  refine ⟨rfl, rfl, ?_,
    ⟨sortByPointsDesc st.users, sortByPointsDesc_perm _,
      sortByPointsDesc_sorted _, rfl⟩, by decide⟩
  unfold getUserStatistics
  dsimp only
  by_cases h : st.users.length = 0
  · rw [if_pos h, if_neg (by omega)]
  · rw [if_neg h, if_pos (by omega)]

/-! ### Claim C4: Statistics mutates the stored order -/

/-- Counterexample to C4: one `getUserStatistics` call on the seed
directory reorders the stored array (the in-place sort), so `getAllUsers`
no longer returns insertion order — the ids come back 3, 2, 1. -/
theorem statistics_mutates_directory :
    getAllUsers (getUserStatistics seedState).2 ≠ getAllUsers seedState ∧
    ((getUserStatistics seedState).2.users.map fun u => u.id) = [3, 2, 1] ∧
    (seedState.users.map fun u => u.id) = [1, 2, 3] := by decide

/-- C4 as amended: `getUserStatistics` neither adds, removes nor modifies
any user record and leaves the next-id counter unchanged — the stored
collection is only reordered (a permutation) — and `getAllUsers` returns
the stored array in its stored order. -/
theorem statistics_frame_amended (st : ServiceState) :
    List.Perm (getUserStatistics st).2.users st.users ∧
    (getUserStatistics st).2.nextUserId = st.nextUserId ∧
    getAllUsers st = st.users := by
  refine ⟨sortByPointsDesc_perm _, rfl, ?_⟩
  show st.users.map (fun u => u) = st.users
  exact List.map_id' st.users

/-! ### Claim C5: the generator's retry bound -/


/-- Counterexample to C5: with draws 1..99 colliding (bytes ab cd ef give
the stored code "ABCDEF") and the 100th draw fresh ("000001"), one of the
up-to-100 generated candidates does not collide, yet `generateReferralCode`
still signals the internal error: the loop exits after the 100th draw with
`attempts = 100` and the post-loop `attempts >= maxAttempts` check throws
without looking at that candidate. -/
theorem generate_code_discards_last_draw :
    (∃ k, k ≤ 99 ∧ collides [c5User] (candidate (c5Entropy k)) = false) ∧
    generateReferralCode [c5User] c5Entropy = .error () := by
  exact ⟨⟨99, by decide, by decide⟩, rfl⟩

/-- C5 as amended: the effective bound is 99 candidates, not 100: if any
of the first 99 draws does not collide with a stored code, the generator
returns the first such candidate (rather than the internal error); the
100th draw is made but its value can never be returned. -/
theorem generate_code_retries_amended (users : List User)
    (e : Nat → Nat × Nat × Nat)
    (h : ∃ j, j < 99 ∧ collides users (candidate (e j)) = false) :
    ∃ j, j < 99 ∧ generateReferralCode users e = .ok (candidate (e j)) ∧
      collides users (candidate (e j)) = false ∧
      ∀ i, i < j → collides users (candidate (e i)) = true := by
  obtain ⟨j, hj, hf⟩ := h
  obtain ⟨m, hm, hok, hfr, hall⟩ :=
    @genAux_finds users e 99 0 ⟨j, hj, by rw [Nat.zero_add]; exact hf⟩
  rw [Nat.zero_add] at hok hfr
  refine ⟨m, hm, hok, hfr, ?_⟩
  intro i hi
  have := hall i hi
  rwa [Nat.zero_add] at this

/-- Witness for the amended C5: on the seed directory with an entropy
stream whose first draw is fresh, the generator returns that first
candidate. -/
theorem generate_code_retries_amended_witness :
    ∃ j, j < 99 ∧
      generateReferralCode seedState.users wEntropy = .ok (candidate (wEntropy j)) ∧
      collides seedState.users (candidate (wEntropy j)) = false ∧
      ∀ i, i < j → collides seedState.users (candidate (wEntropy i)) = true :=
  generate_code_retries_amended seedState.users wEntropy ⟨0, by decide, by decide⟩

/-! ### Claim C3: how Validate accumulates errors -/


/-- Counterexample to C3: on `{name: "", email: "bad"}` the validator
returns exactly the required-name message (the empty string is falsy, so
the "cannot be empty" branch is never reached) and the email minimum-length
message — the email format check does not run once the length check has
failed, so no email-format message is surfaced. -/
theorem validate_not_exhaustive_per_field :
    (validateUserInput c3Input).isValid = false ∧
    (validateUserInput c3Input).errors = [msgNameRequired, msgEmailMin] ∧
    msgEmailFormat ∉ (validateUserInput c3Input).errors ∧
    msgNameEmpty ∉ (validateUserInput c3Input).errors := by decide

/-- C3 as amended: `validateUserInput` accumulates across fields — each
field's errors appear in the output even when another field already
failed — but within one field the checks short-circuit, so at most one
error per field is emitted; `Validate({name:"", email:"bad"})` yields
exactly the required-name and email-too-short messages. -/
theorem validate_accumulates_across_fields (u : UserInput) :
    List.Sublist (nameErrors u.name) (validateUserInput u).errors ∧
    List.Sublist (emailErrors u.email) (validateUserInput u).errors ∧
    List.Sublist (rcErrors u.referralCode) (validateUserInput u).errors ∧
    (nameErrors u.name).length ≤ 1 ∧ (emailErrors u.email).length ≤ 1 ∧
    (rcErrors u.referralCode).length ≤ 1 ∧
    ((validateUserInput u).isValid = true ↔ (validateUserInput u).errors = []) ∧
    (validateUserInput c3Input).errors = [msgNameRequired, msgEmailMin] := by
  refine ⟨?_, ?_, ?_, ?_, ?_, ?_, List.isEmpty_iff, by decide⟩
  · exact (List.sublist_append_left _ _).trans (List.sublist_append_left _ _)
  · exact (List.sublist_append_right _ _).trans (List.sublist_append_left _ _)
  · exact List.sublist_append_right _ _
  · cases u.name <;> simp only [nameErrors] <;> (repeat' split) <;> simp
  · cases u.email <;> simp only [emailErrors] <;> (repeat' split) <;> simp
  · cases u.referralCode <;> simp only [rcErrors] <;> (repeat' split) <;> simp

/-! ### Claim C8: lookup is insensitive to case and whitespace -/

/-- C8: over any directory whose stored codes are nonempty (every code in
the data model is six characters), looking up a referral code gives the
same result as looking up its trimmed upper-cased form — in particular
"abc123" and "ABC123" resolve identically — and null, undefined, numeric
or boolean input yields not-found rather than an error. -/
theorem find_by_code_normalizes (st : ServiceState)
    (h : ∀ u ∈ st.users, u.referralCode ≠ ([] : JsStr)) :
    (∀ s : JsStr, findUserByReferralCode st.users (.str s) =
        findUserByReferralCode st.users (.str (jsToUpper (jsTrim s)))) ∧
    findUserByReferralCode st.users .nullV = none ∧
    findUserByReferralCode st.users .undef = none ∧
    (∀ n : Int, findUserByReferralCode st.users (.num n) = none) ∧
    (∀ b : Bool, findUserByReferralCode st.users (.boolV b) = none) ∧
    findUserByReferralCode st.users (.str (jsStr "abc123")) =
      findUserByReferralCode st.users (.str (jsStr "ABC123")) := by
  have hmain : ∀ s : JsStr, findUserByReferralCode st.users (.str s) =
      findUserByReferralCode st.users (.str (jsToUpper (jsTrim s))) := by
    intro s
    by_cases hs : s.isEmpty = true
    · have hnil : s = [] := List.isEmpty_iff.mp hs
      subst hnil
      rfl
    · simp only [findUserByReferralCode]
      rw [if_neg hs]
      by_cases hk : (jsToUpper (jsTrim s)).isEmpty = true
      · rw [if_pos hk]
        have hknil : jsToUpper (jsTrim s) = [] := List.isEmpty_iff.mp hk
        rw [hknil]
        exact List.find?_eq_none.mpr fun u hu => by
          simp only [beq_iff_eq]
          exact h u hu
      · rw [if_neg hk, normCode_idem]
  refine ⟨hmain, rfl, rfl, fun n => rfl, fun b => rfl, ?_⟩
  rw [hmain (jsStr "abc123"), hmain (jsStr "ABC123")]
  rw [show jsToUpper (jsTrim (jsStr "abc123")) =
    jsToUpper (jsTrim (jsStr "ABC123")) from by decide]

/-- Witness for C8 on the seed directory: the lower-case form of Alice's
code resolves exactly as the stored form, and null input is not-found. -/
theorem find_by_code_normalizes_witness :
    findUserByReferralCode seedState.users (.str (jsStr "abc123")) =
      findUserByReferralCode seedState.users (.str (jsStr "ABC123")) ∧
    findUserByReferralCode seedState.users .nullV = none :=
  ⟨(find_by_code_normalizes seedState (by decide)).2.2.2.2.2,
   (find_by_code_normalizes seedState (by decide)).2.1⟩

/-! ### Claim C2: the directory invariant over all reachable states -/

/-- C2: every state reachable from the seed by any sequence of
registrations, points updates and statistics calls satisfies the
Directory invariant: emails pairwise distinct case-insensitively,
referral codes pairwise distinct, every stored code matching
`[A-Z0-9]{6}`, the next-id counter exceeding every stored id, and ids
pairwise distinct (never reused). -/
theorem directory_invariant (st : ServiceState) (h : Reachable st) : Inv st :=
  (inv_of_reachable h).1

/-- Witness for C2: the seed state itself. -/
theorem directory_invariant_witness : Inv seedState :=
  directory_invariant seedState Reachable.seed

end Referral
